import Mathlib

/-!
Verification of the ssh-auto-forward forwarding/reconciliation engine.

This file shallowly embeds the core of `ssh_auto_forward/forwarder.py`
(class `SSHTunnel` and class `SSHAutoForwarder`) and the state-clearing
step of `DashboardApp._do_reconnect` from `ssh_auto_forward/dashboard.py`,
and proves properties of the embedded operations.

Modelling conventions:
- Python `dict`s (insertion ordered, unique keys) are embedded as
  association lists `List (Nat × α)` together with operations `dkeys`,
  `dvalues`, `dlookup`, `dinsert`, `derase` mirroring `d.keys()`,
  `d.values()`, `d[k]`, `d[k] = v`, `del d[k]`.
- Python `set`s become `Finset Nat`.
- The operating system (which local ports a fresh loopback socket can
  bind) is an oracle `osFree : Nat -> Bool`, held fixed for the duration
  of one embedded call: `is_local_port_available`s test bind and a
  subsequent `SSHTunnel.start` bind consult the same oracle.
- Tunnel objects live on a heap (`Forwarder.heap`, a list indexed by
  creation order); the `tunnels` dict maps a remote port to a heap index,
  so that clearing the dict (as the dashboard reconnect path does) is
  distinct from stopping the tunnel object itself.
- Network and process side effects (paramiko channels, threads, the
  remote scan command) are inputs: `scan_and_forward` takes the discovery
  result that `get_remote_listening_ports` returned, and the relay loop
  `pipeRun` takes the sequence of readiness/receive outcomes that
  `select`/`recv` produced.
-/

namespace SSHAutoForward

/-! ### Python dict as an association list -/

/-- Keys of a dict, in insertion order (Python `d.keys()`). -/
def dkeys {α : Type} (l : List (Nat × α)) : List Nat := l.map (·.1)

/-- Values of a dict, in insertion order (Python `d.values()`). -/
def dvalues {α : Type} (l : List (Nat × α)) : List α := l.map (·.2)

/-- Lookup (Python `d.get(k)` / `d[k]`). -/
def dlookup {α : Type} (l : List (Nat × α)) (k : Nat) : Option α :=
  (l.find? (fun e => e.1 = k)).map (·.2)

/-- Assignment `d[k] = v`: replace in place if the key exists, else append. -/
def dinsert {α : Type} (l : List (Nat × α)) (k : Nat) (v : α) : List (Nat × α) :=
  if k ∈ dkeys l then l.map (fun e => if e.1 = k then (k, v) else e)
  else l ++ [(k, v)]

/-- Deletion `del d[k]` / `d.pop(k, None)`. -/
def derase {α : Type} (l : List (Nat × α)) (k : Nat) : List (Nat × α) :=
  l.filter (fun e => decide (e.1 ≠ k))

/-! ### SSHTunnel -/

/-- One SSH tunnel object (class `SSHTunnel`): identity, listening-socket
state and traffic counters.  `server_socket_open` models whether
`self.server_socket` is a bound, open socket. -/
structure Tunnel where
  remote_host : String
  remote_port : Nat
  local_port : Nat
  process_name : String
  active : Bool
  server_socket_open : Bool
  bytes_sent : Nat
  bytes_received : Nat
deriving DecidableEq

/-- `SSHTunnel.__init__`: counters zero, not active, no socket yet. -/
def Tunnel.init (remote_host : String) (remote_port local_port : Nat)
    (process_name : String) : Tunnel :=
  { remote_host := remote_host, remote_port := remote_port,
    local_port := local_port, process_name := process_name,
    active := false, server_socket_open := false,
    bytes_sent := 0, bytes_received := 0 }

/-- `SSHTunnel.start`: bind the loopback listening socket on
`local_port` (success governed by the OS oracle); on success set
`active = True` and return `True`, on bind failure close the socket and
return `False`. -/
def Tunnel.start (osFree : Nat → Bool) (t : Tunnel) : Bool × Tunnel :=
  if osFree t.local_port then
    (true, { t with active := true, server_socket_open := true })
  else
    (false, { t with server_socket_open := false })

/-- `SSHTunnel.stop`: set `active = False` and close the listening socket. -/
def Tunnel.stop (t : Tunnel) : Tunnel :=
  { t with active := false, server_socket_open := false }

/-! ### The relay loop `SSHTunnel._pipe`

One iteration of the `while self.active` loop does a bounded
`select([sock, chan], [], [], 1.0)`; if the local socket is readable it
`recv`s one chunk and `sendall`s it to the channel, breaking on a
zero-length read; then, in the same iteration, if the channel is readable
it `recv`s one chunk and `sendall`s it to the local socket, breaking on a
zero-length read.  A `Tick` records one select outcome: `none` means that
side was not readable, `some []` a zero-length (EOF) read, `some d` a
chunk `d`.  The tunnel is taken as staying active for the duration of the
relayed connection (cooperative stop is out of scope of a single
connection).  `pipeRun` returns the two delivered byte streams
(bytes written to the channel, bytes written to the local socket). -/

/-- One `select` tick of the relay loop. -/
structure Tick where
  sockR : Option (List Nat)
  chanR : Option (List Nat)
deriving DecidableEq

/-- Run the relay loop of `SSHTunnel._pipe` over a schedule of select
outcomes; result is (bytes delivered to the channel, bytes delivered to
the local socket). -/
def pipeRun : List Tick → List Nat × List Nat
  | [] => ([], [])
  | t :: ts =>
    match t.sockR with
    | some [] => ([], [])
    | some d =>
      match t.chanR with
      | some [] => (d, [])
      | some e => (d ++ (pipeRun ts).1, e ++ (pipeRun ts).2)
      | none => (d ++ (pipeRun ts).1, (pipeRun ts).2)
    | none =>
      match t.chanR with
      | some [] => ([], [])
      | some e => ((pipeRun ts).1, e ++ (pipeRun ts).2)
      | none => pipeRun ts

/-! ### SSHAutoForwarder state -/

/-- Default skip set: well-known ports below 1000 (`DEFAULT_SKIP_PORTS`). -/
def DEFAULT_SKIP_PORTS : Finset Nat := Finset.range 1000

/-- Default auto-forward ceiling (`DEFAULT_MAX_AUTO_PORT`). -/
def DEFAULT_MAX_AUTO_PORT : Nat := 10000

/-- The mutable state of class `SSHAutoForwarder`, plus a heap of every
tunnel object ever constructed (dict entries are heap indices, so the
dicts can be cleared without touching the objects, as Python references
allow). -/
structure Forwarder where
  skip_ports : Finset Nat
  port_range : Nat × Nat
  max_auto_port : Nat
  heap : List Tunnel
  tunnels : List (Nat × Nat)
  local_port_map : List (Nat × Nat)
  process_names : List (Nat × String)
  failed_ports : Finset Nat
  manual_tunnels : Finset Nat
  all_remote_ports : List (Nat × String)
deriving DecidableEq

/-- `SSHAutoForwarder.__init__` with the configuration already resolved
(the `skip_ports or DEFAULT_SKIP_PORTS` defaulting happens before this
point): every registry starts empty. -/
def Forwarder.init (skip_ports : Finset Nat) (port_range : Nat × Nat)
    (max_auto_port : Nat) : Forwarder :=
  { skip_ports := skip_ports, port_range := port_range,
    max_auto_port := max_auto_port,
    heap := [], tunnels := [], local_port_map := [], process_names := [],
    failed_ports := ∅, manual_tunnels := ∅, all_remote_ports := [] }

/-- `SSHAutoForwarder.is_local_port_available`: false if the port is
already a value of `local_port_map`, otherwise the result of a test
bind-and-release of a loopback socket (the OS oracle). -/
def is_local_port_available (s : Forwarder) (osFree : Nat → Bool)
    (port : Nat) : Bool :=
  if port ∈ dvalues s.local_port_map then false
  else osFree port

/-- `SSHAutoForwarder.find_available_local_port`: try the preferred port;
then offsets `+1 … +999`, breaking once the candidate exceeds 65535; then
a linear scan of `range(3000, 65535)`; else `None`. -/
def find_available_local_port (s : Forwarder) (osFree : Nat → Bool)
    (preferred_port : Nat) : Option Nat :=
  if is_local_port_available s osFree preferred_port then
    some preferred_port
  else
    match ((List.range' (preferred_port + 1) 999).takeWhile
              (fun alt => decide (alt ≤ 65535))).find?
            (fun alt => is_local_port_available s osFree alt) with
    | some alt => some alt
    | none =>
      (List.range' 3000 62535).find?
        (fun port => is_local_port_available s osFree port)

/-- `SSHAutoForwarder.forward_port`: returns the Python boolean result and
the updated state.  The branches mirror the source in order: already
forwarded; in the skip list; collides with a used local forwarding port;
previously failed; no local port available; then construct an `SSHTunnel`
and either record it in every registry on `start()` success or record the
failure. -/
def forward_port (s : Forwarder) (osFree : Nat → Bool) (remote_port : Nat)
    (process_name : String) (manual : Bool) : Bool × Forwarder :=
  if remote_port ∈ dkeys s.tunnels then
    (true, s)
  else if remote_port ∈ s.skip_ports then
    (false, s)
  else if remote_port ∈ dvalues s.local_port_map ∧
          remote_port ∉ dkeys s.tunnels then
    (false, s)
  else if remote_port ∈ s.failed_ports then
    (false, s)
  else
    match find_available_local_port s osFree remote_port with
    | none => (false, { s with failed_ports := insert remote_port s.failed_ports })
    | some local_port =>
      match Tunnel.start osFree
        (Tunnel.init "localhost" remote_port local_port process_name) with
      | (true, t) =>
        (true,
         { s with
             heap := s.heap ++ [t],
             tunnels := dinsert s.tunnels remote_port s.heap.length,
             local_port_map := dinsert s.local_port_map remote_port local_port,
             process_names := dinsert s.process_names remote_port process_name,
             manual_tunnels :=
               if manual ∨ s.max_auto_port < remote_port then
                 insert remote_port s.manual_tunnels
               else s.manual_tunnels })
      | (false, _) =>
        (false, { s with failed_ports := insert remote_port s.failed_ports })

/-- Apply `Tunnel.stop` to the heap entry at the given index (the Python
call `self.tunnels[remote_port].stop()` mutates the referenced object). -/
def heap_stop : List Tunnel → Nat → List Tunnel
  | [], _ => []
  | t :: ts, 0 => t.stop :: ts
  | t :: ts, n + 1 => t :: heap_stop ts n

/-- `SSHAutoForwarder.stop_forwarding_port`: if the port has a tunnel,
stop the tunnel object and purge the port from every registry
(`tunnels`, `local_port_map`, `process_names`, `manual_tunnels`,
`failed_ports`); otherwise do nothing. -/
def stop_forwarding_port (s : Forwarder) (remote_port : Nat) : Forwarder :=
  if remote_port ∈ dkeys s.tunnels then
    { s with
        heap :=
          match dlookup s.tunnels remote_port with
          | some tid => heap_stop s.heap tid
          | none => s.heap,
        tunnels := derase s.tunnels remote_port,
        local_port_map := derase s.local_port_map remote_port,
        process_names := derase s.process_names remote_port,
        manual_tunnels := s.manual_tunnels.erase remote_port,
        failed_ports := s.failed_ports.erase remote_port }
  else s

/-- The body of the auto-forwarding loop in `scan_and_forward`: forward a
discovered `(port, process_name)` pair only when the port does not exceed
the ceiling. -/
def auto_forward_step (osFree : Nat → Bool) (acc : Forwarder)
    (e : Nat × String) : Forwarder :=
  if e.1 ≤ acc.max_auto_port then (forward_port acc osFree e.1 e.2 false).2
  else acc

/-- The closing loop of `scan_and_forward`: `closed_ports` is every
currently forwarded remote port absent from the fresh discovery result,
and each of them is stopped. -/
def stop_closed_ports (remote_ports : List (Nat × String))
    (s2 : Forwarder) : Forwarder :=
  ((dkeys s2.tunnels).filter
      (fun port => decide (port ∉ dkeys remote_ports))).foldl
    stop_forwarding_port s2

/-- `SSHAutoForwarder.scan_and_forward`, applied to the discovery result
that `get_remote_listening_ports` returned: empty result is a no-op;
otherwise cache the snapshot, auto-forward eligible discovered ports, and
stop every forwarded port absent from the result. -/
def scan_and_forward (s : Forwarder) (osFree : Nat → Bool)
    (remote_ports : List (Nat × String)) : Forwarder :=
  if remote_ports.isEmpty then s
  else
    stop_closed_ports remote_ports
      (remote_ports.foldl (auto_forward_step osFree)
        { s with all_remote_ports := remote_ports })

/-- State-clearing step of `DashboardApp._do_reconnect` (dashboard.py):
after closing the stale transport it clears `tunnels`,
`local_port_map`, `process_names`, `manual_tunnels`, `failed_ports` and
`all_remote_ports` — and never calls `stop()` on any tunnel, so the heap
of tunnel objects is untouched. -/
def do_reconnect_clear (s : Forwarder) : Forwarder :=
  { s with
      tunnels := [], local_port_map := [], process_names := [],
      manual_tunnels := ∅, failed_ports := ∅, all_remote_ports := [] }

/-- The allocator as claim C3 words it (refinement comparison only): the
fallback phase scans the CONFIGURED fallback local-port range
`port_range` (inclusive) rather than the fixed 3000–65534 range that the
source scans. -/
def find_available_local_port_claimed (s : Forwarder) (osFree : Nat → Bool)
    (preferred_port : Nat) : Option Nat :=
  if is_local_port_available s osFree preferred_port then
    some preferred_port
  else
    match ((List.range' (preferred_port + 1) 999).takeWhile
              (fun alt => decide (alt ≤ 65535))).find?
            (fun alt => is_local_port_available s osFree alt) with
    | some alt => some alt
    | none =>
      (List.range' s.port_range.1 (s.port_range.2 + 1 - s.port_range.1)).find?
        (fun port => is_local_port_available s osFree port)

/-- The candidate sequence that the source allocator actually searches:
the preferred port, then the +1…+999 window capped at 65535, then the
fixed fallback range 3000–65534. -/
def candidate_ports (preferred_port : Nat) : List Nat :=
  preferred_port ::
    ((List.range' (preferred_port + 1) 999).takeWhile
        (fun alt => decide (alt ≤ 65535))) ++
    List.range' 3000 62535

/-! ### Dictionary lemmas -/

theorem dkeys_append {α : Type} (l1 l2 : List (Nat × α)) :
    dkeys (l1 ++ l2) = dkeys l1 ++ dkeys l2 := List.map_append _ _ _

theorem dvalues_append {α : Type} (l1 l2 : List (Nat × α)) :
    dvalues (l1 ++ l2) = dvalues l1 ++ dvalues l2 := List.map_append _ _ _

theorem dkeys_dinsert_of_mem {α : Type} {l : List (Nat × α)} {k : Nat}
    {v : α} (h : k ∈ dkeys l) : dkeys (dinsert l k v) = dkeys l := by
  unfold dinsert
  rw [if_pos h]
  unfold dkeys
  rw [List.map_map]
  apply List.map_congr_left
  intro e _
  by_cases hek : e.1 = k
  · simp [hek]
  · simp [hek]

theorem dinsert_of_not_mem {α : Type} {l : List (Nat × α)} {k : Nat}
    {v : α} (h : k ∉ dkeys l) : dinsert l k v = l ++ [(k, v)] := by
  unfold dinsert
  rw [if_neg h]

theorem mem_dkeys_dinsert {α : Type} (l : List (Nat × α)) (k : Nat) (v : α)
    (p : Nat) : p ∈ dkeys (dinsert l k v) ↔ p ∈ dkeys l ∨ p = k := by
  by_cases h : k ∈ dkeys l
  · rw [dkeys_dinsert_of_mem h]
    constructor
    · exact fun hp => Or.inl hp
    · rintro (hp | rfl)
      · exact hp
      · exact h
  · rw [dinsert_of_not_mem h, dkeys_append]
    simp [dkeys]

theorem mem_dvalues_dinsert {α : Type} {l : List (Nat × α)} {k : Nat}
    {v w : α} (hw : w ∈ dvalues (dinsert l k v)) :
    w ∈ dvalues l ∨ w = v := by
  unfold dinsert at hw
  split at hw
  · unfold dvalues at hw ⊢
    rw [List.map_map] at hw
    rcases List.mem_map.mp hw with ⟨e, he, hval⟩
    by_cases hek : e.1 = k
    · right
      rw [← hval]
      simp [hek]
    · left
      rw [← hval]
      simp only [Function.comp_apply, if_neg hek]
      exact List.mem_map_of_mem _ he
  · rw [dvalues_append] at hw
    rcases List.mem_append.mp hw with h | h
    · exact Or.inl h
    · right
      simpa [dvalues] using h

theorem dkeys_derase {α : Type} (l : List (Nat × α)) (k : Nat) :
    dkeys (derase l k) = (dkeys l).filter (fun x => decide (x ≠ k)) := by
  unfold derase dkeys
  induction l with
  | nil => rfl
  | cons e t ih =>
    simp only [List.map_cons, List.filter_cons]
    by_cases h : e.1 = k
    · rw [if_neg (by simp [h]), if_neg (by simp [h])]
      exact ih
    · rw [if_pos (by simp [h]), if_pos (by simp [h])]
      simp only [List.map_cons]
      rw [ih]

theorem mem_dkeys_derase {α : Type} (l : List (Nat × α)) (k p : Nat) :
    p ∈ dkeys (derase l k) ↔ p ∈ dkeys l ∧ p ≠ k := by
  rw [dkeys_derase]
  simp

theorem dvalues_derase_sublist {α : Type} (l : List (Nat × α)) (k : Nat) :
    (dvalues (derase l k)).Sublist (dvalues l) :=
  (List.filter_sublist l).map _

theorem dkeys_derase_sublist {α : Type} (l : List (Nat × α)) (k : Nat) :
    (dkeys (derase l k)).Sublist (dkeys l) :=
  (List.filter_sublist l).map _

theorem dlookup_eq_none {α : Type} {l : List (Nat × α)} {k : Nat} :
    dlookup l k = none ↔ k ∉ dkeys l := by
  unfold dlookup dkeys
  simp only [Option.map_eq_none', List.find?_eq_none, decide_eq_true_eq,
    List.mem_map]
  constructor
  · rintro h ⟨e, he, rfl⟩
    exact h e he rfl
  · rintro h e he rfl
    exact h ⟨e, he, rfl⟩

theorem dlookup_entry_mem {α : Type} {l : List (Nat × α)} {k : Nat} {v : α}
    (h : dlookup l k = some v) : (k, v) ∈ l := by
  unfold dlookup at h
  cases hf : l.find? (fun e => decide (e.1 = k)) with
  | none => rw [hf] at h; cases h
  | some e =>
    rw [hf] at h
    have he1' := List.find?_some hf
    have he1 : e.1 = k := by simpa using he1'
    have hmem := List.mem_of_find?_eq_some hf
    have he2 : e.2 = v := by
      simpa using h
    have : e = (k, v) := by
      cases e
      simp_all
    rwa [this] at hmem

theorem dlookup_append_self {α : Type} {l : List (Nat × α)} {k : Nat}
    {v : α} (h : k ∉ dkeys l) : dlookup (l ++ [(k, v)]) k = some v := by
  unfold dlookup
  rw [List.find?_append]
  have hnone : l.find? (fun e => decide (e.1 = k)) = none := by
    rw [List.find?_eq_none]
    intro e he
    simp only [decide_eq_true_eq]
    intro heq
    exact h (heq ▸ List.mem_map_of_mem _ he)
  rw [hnone]
  simp

/-! ### Branch equations for the embedded operations -/

theorem is_local_port_available_of (s : Forwarder) (osFree : Nat → Bool)
    {q : Nat} (h3 : q ∉ dvalues s.local_port_map) (h5 : osFree q = true) :
    is_local_port_available s osFree q = true := by
  unfold is_local_port_available
  rw [if_neg h3]
  exact h5

theorem find_available_local_port_self {s : Forwarder} {osFree : Nat → Bool}
    {q : Nat} (h : is_local_port_available s osFree q = true) :
    find_available_local_port s osFree q = some q := by
  unfold find_available_local_port
  rw [if_pos h]

theorem forward_port_already {s : Forwarder} {osFree : Nat → Bool}
    {q : Nat} {n : String} {m : Bool} (h : q ∈ dkeys s.tunnels) :
    forward_port s osFree q n m = (true, s) := by
  unfold forward_port
  rw [if_pos h]

theorem forward_port_skip {s : Forwarder} {osFree : Nat → Bool}
    {q : Nat} {n : String} {m : Bool}
    (h1 : q ∉ dkeys s.tunnels) (h2 : q ∈ s.skip_ports) :
    forward_port s osFree q n m = (false, s) := by
  unfold forward_port
  rw [if_neg h1, if_pos h2]

theorem forward_port_rejected_failed {s : Forwarder} {osFree : Nat → Bool}
    {q : Nat} {n : String} {m : Bool}
    (h1 : q ∉ dkeys s.tunnels) (h2 : q ∉ s.skip_ports)
    (h3 : q ∉ dvalues s.local_port_map) (h4 : q ∈ s.failed_ports) :
    forward_port s osFree q n m = (false, s) := by
  unfold forward_port
  rw [if_neg h1, if_neg h2, if_neg (fun hc => h3 hc.1), if_pos h4]

theorem forward_port_success {s : Forwarder} {osFree : Nat → Bool}
    {q : Nat} {n : String} {m : Bool}
    (h1 : q ∉ dkeys s.tunnels) (h2 : q ∉ s.skip_ports)
    (h3 : q ∉ dvalues s.local_port_map) (h4 : q ∉ s.failed_ports)
    (h5 : osFree q = true) :
    forward_port s osFree q n m =
      (true,
       { s with
           heap := s.heap ++
             [{ remote_host := "localhost", remote_port := q, local_port := q,
                process_name := n, active := true, server_socket_open := true,
                bytes_sent := 0, bytes_received := 0 }],
           tunnels := s.tunnels ++ [(q, s.heap.length)],
           local_port_map := dinsert s.local_port_map q q,
           process_names := dinsert s.process_names q n,
           manual_tunnels :=
             if m ∨ s.max_auto_port < q then insert q s.manual_tunnels
             else s.manual_tunnels }) := by
  unfold forward_port
  rw [if_neg h1, if_neg h2, if_neg (fun hc => h3 hc.1), if_neg h4,
    find_available_local_port_self (is_local_port_available_of s osFree h3 h5)]
  simp only [Tunnel.start, Tunnel.init, h5, if_true]
  rw [dinsert_of_not_mem h1]

theorem forward_port_collision {s : Forwarder} {osFree : Nat → Bool}
    {q : Nat} {n : String} {m : Bool}
    (h1 : q ∉ dkeys s.tunnels) (h2 : q ∉ s.skip_ports)
    (h3 : q ∈ dvalues s.local_port_map) :
    forward_port s osFree q n m = (false, s) := by
  unfold forward_port
  rw [if_neg h1, if_neg h2, if_pos ⟨h3, h1⟩]

theorem forward_port_noop_of_failed {s : Forwarder} {osFree : Nat → Bool}
    {q : Nat} {n : String} {m : Bool}
    (h1 : q ∉ dkeys s.tunnels) (h4 : q ∈ s.failed_ports) :
    (forward_port s osFree q n m).2 = s := by
  by_cases h2 : q ∈ s.skip_ports
  · rw [forward_port_skip h1 h2]
  · by_cases h3 : q ∈ dvalues s.local_port_map
    · rw [forward_port_collision h1 h2 h3]
    · rw [forward_port_rejected_failed h1 h2 h3 h4]

theorem forward_port_frame (s : Forwarder) (osFree : Nat → Bool)
    (q : Nat) (n : String) (m : Bool) :
    (forward_port s osFree q n m).2.skip_ports = s.skip_ports ∧
    (forward_port s osFree q n m).2.max_auto_port = s.max_auto_port ∧
    (forward_port s osFree q n m).2.port_range = s.port_range ∧
    (forward_port s osFree q n m).2.all_remote_ports = s.all_remote_ports := by
  unfold forward_port
  repeat' split
  all_goals simp

theorem forward_port_tunnels_mem_ne (s : Forwarder) (osFree : Nat → Bool)
    (q : Nat) (n : String) (m : Bool) (p : Nat) (hpq : p ≠ q) :
    p ∈ dkeys (forward_port s osFree q n m).2.tunnels ↔
      p ∈ dkeys s.tunnels := by
  unfold forward_port
  repeat' split
  all_goals simp [mem_dkeys_dinsert, hpq]

theorem forward_port_tunnels_mono (s : Forwarder) (osFree : Nat → Bool)
    (q : Nat) (n : String) (m : Bool) (p : Nat)
    (hp : p ∈ dkeys s.tunnels) :
    p ∈ dkeys (forward_port s osFree q n m).2.tunnels := by
  unfold forward_port
  repeat' split
  all_goals simp [mem_dkeys_dinsert, hp]

theorem forward_port_failed_mono (s : Forwarder) (osFree : Nat → Bool)
    (q : Nat) (n : String) (m : Bool) (p : Nat)
    (hp : p ∈ s.failed_ports) :
    p ∈ (forward_port s osFree q n m).2.failed_ports := by
  unfold forward_port
  repeat' split
  all_goals simp [Finset.mem_insert, hp]

theorem stop_forwarding_port_tunnels_mem (s : Forwarder) (r p : Nat) :
    p ∈ dkeys (stop_forwarding_port s r).tunnels ↔
      p ∈ dkeys s.tunnels ∧ p ≠ r := by
  unfold stop_forwarding_port
  split
  · rename_i hr
    simp [mem_dkeys_derase]
  · rename_i hr
    constructor
    · intro hp
      exact ⟨hp, fun hrfl => hr (hrfl ▸ hp)⟩
    · exact fun hp => hp.1

theorem stop_forwarding_port_frame (s : Forwarder) (r : Nat) :
    (stop_forwarding_port s r).skip_ports = s.skip_ports ∧
    (stop_forwarding_port s r).max_auto_port = s.max_auto_port ∧
    (stop_forwarding_port s r).port_range = s.port_range ∧
    (stop_forwarding_port s r).all_remote_ports = s.all_remote_ports := by
  unfold stop_forwarding_port
  split
  all_goals simp

theorem stop_forwarding_port_failed_keep {s : Forwarder} {r p : Nat}
    (hp : p ∈ s.failed_ports) (hpt : p ∉ dkeys s.tunnels) :
    p ∈ (stop_forwarding_port s r).failed_ports := by
  unfold stop_forwarding_port
  split
  · rename_i hr
    refine Finset.mem_erase.mpr ⟨?_, hp⟩
    intro hpr
    exact hpt (hpr ▸ hr)
  · exact hp

/-! ### Fold lemmas for the two phases of scan_and_forward -/

theorem stop_fold_tunnels_mem (C : List Nat) :
    ∀ (a : Forwarder) (p : Nat),
      p ∈ dkeys ((C.foldl stop_forwarding_port a).tunnels) ↔
        p ∈ dkeys a.tunnels ∧ p ∉ C := by
  induction C with
  | nil =>
    intro a p
    simp
  | cons r t ih =>
    intro a p
    simp only [List.foldl_cons]
    rw [ih, stop_forwarding_port_tunnels_mem]
    simp only [List.mem_cons]
    constructor
    · rintro ⟨⟨hp, hpr⟩, hpt⟩
      exact ⟨hp, fun h => h.elim hpr hpt⟩
    · rintro ⟨hp, hmem⟩
      exact ⟨⟨hp, fun h => hmem (Or.inl h)⟩, fun h => hmem (Or.inr h)⟩

theorem stop_fold_frame (C : List Nat) :
    ∀ (a : Forwarder),
      (C.foldl stop_forwarding_port a).skip_ports = a.skip_ports ∧
      (C.foldl stop_forwarding_port a).max_auto_port = a.max_auto_port ∧
      (C.foldl stop_forwarding_port a).port_range = a.port_range ∧
      (C.foldl stop_forwarding_port a).all_remote_ports = a.all_remote_ports := by
  induction C with
  | nil => exact fun a => ⟨rfl, rfl, rfl, rfl⟩
  | cons r t ih =>
    intro a
    simp only [List.foldl_cons]
    obtain ⟨h1, h2, h3, h4⟩ := ih (stop_forwarding_port a r)
    obtain ⟨g1, g2, g3, g4⟩ := stop_forwarding_port_frame a r
    exact ⟨h1.trans g1, h2.trans g2, h3.trans g3, h4.trans g4⟩

theorem stop_fold_failed_keep (C : List Nat) :
    ∀ (a : Forwarder) (p : Nat),
      p ∈ a.failed_ports → p ∉ dkeys a.tunnels →
      p ∈ (C.foldl stop_forwarding_port a).failed_ports := by
  induction C with
  | nil => exact fun _ _ hf _ => hf
  | cons r t ih =>
    intro a p hf ht
    simp only [List.foldl_cons]
    apply ih
    · exact stop_forwarding_port_failed_keep hf ht
    · rw [stop_forwarding_port_tunnels_mem]
      exact fun h => ht h.1

theorem auto_forward_step_frame (osFree : Nat → Bool) (a : Forwarder)
    (e : Nat × String) :
    (auto_forward_step osFree a e).skip_ports = a.skip_ports ∧
    (auto_forward_step osFree a e).max_auto_port = a.max_auto_port ∧
    (auto_forward_step osFree a e).port_range = a.port_range ∧
    (auto_forward_step osFree a e).all_remote_ports = a.all_remote_ports := by
  unfold auto_forward_step
  split
  · exact forward_port_frame a osFree e.1 e.2 false
  · exact ⟨rfl, rfl, rfl, rfl⟩

theorem fwd_fold_frame (osFree : Nat → Bool) (L : List (Nat × String)) :
    ∀ (a : Forwarder),
      (L.foldl (auto_forward_step osFree) a).skip_ports = a.skip_ports ∧
      (L.foldl (auto_forward_step osFree) a).max_auto_port = a.max_auto_port ∧
      (L.foldl (auto_forward_step osFree) a).port_range = a.port_range ∧
      (L.foldl (auto_forward_step osFree) a).all_remote_ports =
        a.all_remote_ports := by
  induction L with
  | nil => exact fun a => ⟨rfl, rfl, rfl, rfl⟩
  | cons e t ih =>
    intro a
    simp only [List.foldl_cons]
    obtain ⟨h1, h2, h3, h4⟩ := ih (auto_forward_step osFree a e)
    obtain ⟨g1, g2, g3, g4⟩ := auto_forward_step_frame osFree a e
    exact ⟨h1.trans g1, h2.trans g2, h3.trans g3, h4.trans g4⟩

theorem auto_forward_step_tunnels_not_mem_gt (osFree : Nat → Bool)
    (a : Forwarder) (e : Nat × String) (p : Nat)
    (hgt : a.max_auto_port < p) (hp : p ∉ dkeys a.tunnels) :
    p ∉ dkeys (auto_forward_step osFree a e).tunnels := by
  unfold auto_forward_step
  split
  · rename_i hle
    rw [forward_port_tunnels_mem_ne a osFree e.1 e.2 false p (by omega)]
    exact hp
  · exact hp

theorem fwd_fold_tunnels_not_mem_gt (osFree : Nat → Bool)
    (L : List (Nat × String)) :
    ∀ (a : Forwarder) (p : Nat), a.max_auto_port < p →
      p ∉ dkeys a.tunnels →
      p ∉ dkeys ((L.foldl (auto_forward_step osFree) a).tunnels) := by
  induction L with
  | nil => exact fun _ _ _ hp => hp
  | cons e t ih =>
    intro a p hgt hp
    simp only [List.foldl_cons]
    apply ih
    · rw [(auto_forward_step_frame osFree a e).2.1]
      exact hgt
    · exact auto_forward_step_tunnels_not_mem_gt osFree a e p hgt hp

theorem auto_forward_step_failed_keep (osFree : Nat → Bool) (a : Forwarder)
    (e : Nat × String) (p : Nat)
    (hf : p ∈ a.failed_ports) (ht : p ∉ dkeys a.tunnels) :
    p ∈ (auto_forward_step osFree a e).failed_ports ∧
      p ∉ dkeys (auto_forward_step osFree a e).tunnels := by
  unfold auto_forward_step
  split
  · by_cases hq : e.1 = p
    · rw [hq, forward_port_noop_of_failed ht hf]
      exact ⟨hf, ht⟩
    · refine ⟨forward_port_failed_mono a osFree e.1 e.2 false p hf, ?_⟩
      rw [forward_port_tunnels_mem_ne a osFree e.1 e.2 false p
        (fun h => hq h.symm)]
      exact ht
  · exact ⟨hf, ht⟩

theorem fwd_fold_failed_keep (osFree : Nat → Bool)
    (L : List (Nat × String)) :
    ∀ (a : Forwarder) (p : Nat),
      p ∈ a.failed_ports → p ∉ dkeys a.tunnels →
      p ∈ ((L.foldl (auto_forward_step osFree) a).failed_ports) ∧
      p ∉ dkeys ((L.foldl (auto_forward_step osFree) a).tunnels) := by
  induction L with
  | nil => exact fun _ _ hf ht => ⟨hf, ht⟩
  | cons e t ih =>
    intro a p hf ht
    simp only [List.foldl_cons]
    obtain ⟨hf2, ht2⟩ := auto_forward_step_failed_keep osFree a e p hf ht
    exact ih (auto_forward_step osFree a e) p hf2 ht2

theorem auto_forward_step_tunnels_mono (osFree : Nat → Bool) (a : Forwarder)
    (e : Nat × String) (p : Nat) (hp : p ∈ dkeys a.tunnels) :
    p ∈ dkeys (auto_forward_step osFree a e).tunnels := by
  unfold auto_forward_step
  split
  · exact forward_port_tunnels_mono a osFree e.1 e.2 false p hp
  · exact hp

theorem fwd_fold_tunnels_mono (osFree : Nat → Bool)
    (L : List (Nat × String)) :
    ∀ (a : Forwarder) (p : Nat), p ∈ dkeys a.tunnels →
      p ∈ dkeys ((L.foldl (auto_forward_step osFree) a).tunnels) := by
  induction L with
  | nil => exact fun _ _ hp => hp
  | cons e t ih =>
    intro a p hp
    simp only [List.foldl_cons]
    exact ih _ p (auto_forward_step_tunnels_mono osFree a e p hp)

/-! ### Concrete states used to instantiate hypothesis-bearing theorems -/

/-- A concrete forwarder state with remote port 5000 forwarded (local
port 5000), built from the default configuration by one successful
`forward_port` call. -/
def demoForwarded : Forwarder :=
  (forward_port (Forwarder.init (Finset.range 100) (3000, 10000) 10000)
    (fun _ => true) 5000 "app" false).2

/-- A concrete forwarder state in which port 4000 is recorded as failed
and nothing is forwarded. -/
def demoFailed : Forwarder :=
  { Forwarder.init (Finset.range 100) (3000, 10000) 10000 with
      failed_ports := {4000} }

/-- Configured fallback range 5000–6000 (away from the hardcoded 3000
start of the fallback scan in the source). -/
def cexForwarder : Forwarder := Forwarder.init ∅ (5000, 6000) 10000

/-- An OS in which only local ports 3000 and 5000 can be bound. -/
def cexOsFree : Nat → Bool := fun port => decide (port = 3000 ∨ port = 5000)

/-! ### Claim theorems -/

/-- C2: for one relayed connection, as long as neither side reaches a
zero-length read, the relay delivers to the channel exactly the
concatenation, in order, of the chunks read from the local socket, and
delivers to the local socket exactly the concatenation, in order, of the
chunks read from the channel — each direction independently. -/
theorem pipe_relays_each_direction (ts : List Tick)
    (h : ∀ t ∈ ts, t.sockR ≠ some [] ∧ t.chanR ≠ some []) :
    (pipeRun ts).1 = (ts.filterMap Tick.sockR).flatten ∧
    (pipeRun ts).2 = (ts.filterMap Tick.chanR).flatten := by
  induction ts with
  | nil => exact ⟨rfl, rfl⟩
  | cons t ts ih =>
    obtain ⟨hs, hc⟩ := h t (List.mem_cons_self t ts)
    obtain ⟨ih1, ih2⟩ := ih (fun u hu => h u (List.mem_cons_of_mem t hu))
    cases hsr : t.sockR with
    | none =>
      cases hcr : t.chanR with
      | none =>
        simp [pipeRun, hsr, hcr, List.filterMap_cons, ih1, ih2]
      | some e =>
        cases e with
        | nil => exact absurd hcr hc
        | cons b bs =>
          simp [pipeRun, hsr, hcr, List.filterMap_cons, ih1, ih2]
    | some d =>
      cases d with
      | nil => exact absurd hsr hs
      | cons a as =>
        cases hcr : t.chanR with
        | none =>
          simp [pipeRun, hsr, hcr, List.filterMap_cons, ih1, ih2]
        | some e =>
          cases e with
          | nil => exact absurd hcr hc
          | cons b bs =>
            simp [pipeRun, hsr, hcr, List.filterMap_cons, ih1, ih2]

/-- Witness for C2 on a concrete three-tick schedule. -/
theorem pipe_relays_each_direction_witness :
    (pipeRun [⟨some [1, 2], none⟩, ⟨none, some [9]⟩, ⟨some [3], some [8]⟩]).1 =
      (([⟨some [1, 2], none⟩, ⟨none, some [9]⟩,
          ⟨some [3], some [8]⟩] : List Tick).filterMap Tick.sockR).flatten ∧
    (pipeRun [⟨some [1, 2], none⟩, ⟨none, some [9]⟩, ⟨some [3], some [8]⟩]).2 =
      (([⟨some [1, 2], none⟩, ⟨none, some [9]⟩,
          ⟨some [3], some [8]⟩] : List Tick).filterMap Tick.chanR).flatten :=
  pipe_relays_each_direction _ (by decide)

/-- C3 (counterexample): with the fallback local-port range configured
as 5000–6000, preferred port 65535 unavailable (its overflow window is
empty), and exactly local ports 3000 and 5000 OS-bindable, the source
allocator answers 3000 — found by the hardcoded scan from 3000, a port
outside the configured fallback range — while the allocator the claim
describes (a linear scan of the configured fallback range) would answer
5000.  The configured fallback range is ignored by the code. -/
theorem find_available_ignores_configured_range :
    find_available_local_port cexForwarder cexOsFree 65535 = some 3000 ∧
    find_available_local_port_claimed cexForwarder cexOsFree 65535 =
      some 5000 ∧
    cexForwarder.port_range = (5000, 6000) := by
  refine ⟨by decide, by decide, rfl⟩

/-- C3 (amended): `find_available_local_port preferred` returns the first
OS-and-map-available port in the fixed candidate sequence: `preferred`,
then `preferred+1 … preferred+999` capped at 65535, then the fixed range
3000–65534 (regardless of the configured fallback range), and `none`
only when that whole sequence is exhausted. -/
theorem find_available_local_port_eq_candidates (s : Forwarder)
    (osFree : Nat → Bool) (preferred_port : Nat) :
    find_available_local_port s osFree preferred_port =
      (candidate_ports preferred_port).find?
        (fun port => is_local_port_available s osFree port) := by
  unfold find_available_local_port candidate_ports
  rw [List.cons_append]
  by_cases h : is_local_port_available s osFree preferred_port = true
  · rw [if_pos h, List.find?_cons_of_pos _ h]
  · rw [if_neg h, List.find?_cons_of_neg _ (by simpa using h),
      List.find?_append]
    cases hw : ((List.range' (preferred_port + 1) 999).takeWhile
        (fun alt => decide (alt ≤ 65535))).find?
          (fun alt => is_local_port_available s osFree alt) with
    | some alt => rfl
    | none => rfl

/-- C4: a `forward_port` call on an already-forwarded remote port returns
true and changes nothing: the state (hence the tunnel heap and the
assigned local port) is exactly as before. -/
theorem forward_port_idempotent (s : Forwarder) (osFree : Nat → Bool)
    (p : Nat) (name : String) (manual : Bool)
    (h : p ∈ dkeys s.tunnels) :
    forward_port s osFree p name manual = (true, s) ∧
    (forward_port s osFree p name manual).2.heap = s.heap ∧
    dlookup (forward_port s osFree p name manual).2.local_port_map p =
      dlookup s.local_port_map p := by
  have h' := @forward_port_already s osFree p name manual h
  refine ⟨h', ?_, ?_⟩ <;> rw [h']

set_option maxRecDepth 8000 in
/-- Witness for C4: a second forward of port 5000 on `demoForwarded`. -/
theorem forward_port_idempotent_witness :
    5000 ∈ dkeys demoForwarded.tunnels ∧
    (forward_port demoForwarded (fun _ => true) 5000 "app" false =
        (true, demoForwarded) ∧
      (forward_port demoForwarded (fun _ => true) 5000 "app" false).2.heap =
        demoForwarded.heap ∧
      dlookup (forward_port demoForwarded
          (fun _ => true) 5000 "app" false).2.local_port_map 5000 =
        dlookup demoForwarded.local_port_map 5000) :=
  ⟨by decide,
   forward_port_idempotent demoForwarded (fun _ => true) 5000 "app" false
     (by decide)⟩

/-- C5: a reconciliation cycle in which the scanner returned an empty
mapping is a complete no-op: the entire state — forwarding set, local
port map, process names, failed ports, manual overrides, the cached
discovery snapshot, and the tunnel heap — is returned unchanged, and no
tunnel object is stopped or created. -/
theorem scan_and_forward_empty_scan_noop (s : Forwarder)
    (osFree : Nat → Bool) :
    scan_and_forward s osFree [] = s := rfl

/-- C9: the reconnect path clears every registry (forwarding set, local
port map, process names, manual overrides, failed ports, discovery
cache) but never invokes `Tunnel.stop`: the heap of tunnel objects —
including each active flag and each open listening socket — is exactly
as before the clear. -/
theorem reconnect_clears_without_stopping (s : Forwarder) :
    (do_reconnect_clear s).heap = s.heap ∧
    (do_reconnect_clear s).tunnels = [] ∧
    (do_reconnect_clear s).local_port_map = [] ∧
    (do_reconnect_clear s).process_names = [] ∧
    (do_reconnect_clear s).manual_tunnels = ∅ ∧
    (do_reconnect_clear s).failed_ports = ∅ ∧
    (do_reconnect_clear s).all_remote_ports = [] :=
  ⟨rfl, rfl, rfl, rfl, rfl, rfl, rfl⟩

/-- C10: a remote port recorded in `failed_ports` that has no live
tunnel is never removed from `failed_ports` by a reconciliation cycle
(the teardown purge applies only to ports with a live tunnel), and it is
not forwarded either — so the exclusion persists across further cycles,
whatever the discovery result contains. -/
theorem failed_port_sticky (s : Forwarder) (osFree : Nat → Bool)
    (D : List (Nat × String)) (p : Nat)
    (hf : p ∈ s.failed_ports) (ht : p ∉ dkeys s.tunnels) :
    p ∈ (scan_and_forward s osFree D).failed_ports ∧
    p ∉ dkeys (scan_and_forward s osFree D).tunnels := by
  unfold scan_and_forward
  split
  · exact ⟨hf, ht⟩
  · obtain ⟨hf2, ht2⟩ := fwd_fold_failed_keep osFree D
      { s with all_remote_ports := D } p hf ht
    unfold stop_closed_ports
    refine ⟨stop_fold_failed_keep _ _ p hf2 ht2, ?_⟩
    rw [stop_fold_tunnels_mem]
    exact fun hcc => ht2 hcc.1

set_option maxRecDepth 8000 in
/-- Witness for C10: port 4000 failed, scan rediscovers it, it stays
excluded. -/
theorem failed_port_sticky_witness :
    4000 ∈ demoFailed.failed_ports ∧ 4000 ∉ dkeys demoFailed.tunnels ∧
    (4000 ∈ (scan_and_forward demoFailed
        (fun _ => true) [(4000, "x")]).failed_ports ∧
      4000 ∉ dkeys (scan_and_forward demoFailed
        (fun _ => true) [(4000, "x")]).tunnels) :=
  ⟨by decide, by decide,
   failed_port_sticky demoFailed (fun _ => true) [(4000, "x")] 4000
     (by decide) (by decide)⟩

theorem dlookup_derase_self {α : Type} (l : List (Nat × α)) (k : Nat) :
    dlookup (derase l k) k = none :=
  dlookup_eq_none.mpr (fun h => ((mem_dkeys_derase l k k).mp h).2 rfl)

theorem not_mem_dvalues_derase_of_nodup {α : Type} {l : List (Nat × α)}
    {k : Nat} {v : α} (hv : (dvalues l).Nodup)
    (h : dlookup l k = some v) : v ∉ dvalues (derase l k) := by
  intro hmem
  unfold dvalues derase at hmem
  rcases List.mem_map.mp hmem with ⟨e, he, hev⟩
  have hef := List.mem_filter.mp he
  have hek : e.1 ≠ k := by simpa using hef.2
  have hkv : (k, v) ∈ l := dlookup_entry_mem h
  have heq : e = (k, v) :=
    List.inj_on_of_nodup_map hv hef.1 hkv (by rw [hev])
  exact hek (by rw [heq])

theorem stop_forwarding_port_map_eq {s : Forwarder} {p : Nat}
    (hmem : p ∈ dkeys s.tunnels) :
    (stop_forwarding_port s p).local_port_map =
      derase s.local_port_map p := by
  unfold stop_forwarding_port
  rw [if_pos hmem]

/-- C6: after `stop_forwarding_port p` on a forwarded port `p`, the port
is gone from the forwarding set, the local-port map, the manual
overrides and the failed set, and the local port formerly assigned to
`p` no longer blocks allocation: `is_local_port_available` accepts it
again whenever the operating system can bind it.  (Uniqueness of
local-port values — the C7 invariant — is assumed so that no other
tunnel records the same local port.) -/
theorem stop_forwarding_port_purges (s : Forwarder) (osFree : Nat → Bool)
    (p lp : Nat)
    (hmem : p ∈ dkeys s.tunnels)
    (hlp : dlookup s.local_port_map p = some lp)
    (hvals : (dvalues s.local_port_map).Nodup)
    (hos : osFree lp = true) :
    p ∉ dkeys (stop_forwarding_port s p).tunnels ∧
    dlookup (stop_forwarding_port s p).local_port_map p = none ∧
    p ∉ (stop_forwarding_port s p).manual_tunnels ∧
    p ∉ (stop_forwarding_port s p).failed_ports ∧
    is_local_port_available (stop_forwarding_port s p) osFree lp = true := by
  have hmap := stop_forwarding_port_map_eq hmem
  refine ⟨?_, ?_, ?_, ?_, ?_⟩
  · rw [stop_forwarding_port_tunnels_mem]
    exact fun h => h.2 rfl
  · rw [hmap]
    exact dlookup_derase_self s.local_port_map p
  · unfold stop_forwarding_port
    rw [if_pos hmem]
    exact fun h => (Finset.mem_erase.mp h).1 rfl
  · unfold stop_forwarding_port
    rw [if_pos hmem]
    exact fun h => (Finset.mem_erase.mp h).1 rfl
  · unfold is_local_port_available
    rw [hmap, if_neg (not_mem_dvalues_derase_of_nodup hvals hlp)]
    exact hos

/-- Witness for C6: stopping port 5000 on `demoForwarded` frees local
port 5000. -/
theorem stop_forwarding_port_purges_witness :
    5000 ∈ dkeys demoForwarded.tunnels ∧
    (5000 ∉ dkeys (stop_forwarding_port demoForwarded 5000).tunnels ∧
      dlookup (stop_forwarding_port demoForwarded 5000).local_port_map
          5000 = none ∧
      5000 ∉ (stop_forwarding_port demoForwarded 5000).manual_tunnels ∧
      5000 ∉ (stop_forwarding_port demoForwarded 5000).failed_ports ∧
      is_local_port_available (stop_forwarding_port demoForwarded 5000)
          (fun _ => true) 5000 = true) :=
  ⟨by decide,
   stop_forwarding_port_purges demoForwarded (fun _ => true) 5000 5000
     (by decide) (by decide) (by decide) rfl⟩

/-! ### The local-port uniqueness invariant -/

theorem is_local_port_available_elim {s : Forwarder} {osFree : Nat → Bool}
    {lp : Nat} (h : is_local_port_available s osFree lp = true) :
    lp ∉ dvalues s.local_port_map ∧ osFree lp = true := by
  unfold is_local_port_available at h
  split at h
  · exact absurd h (by simp)
  · rename_i hnm
    exact ⟨hnm, h⟩

theorem find_available_local_port_avail {s : Forwarder}
    {osFree : Nat → Bool} {pp lp : Nat}
    (h : find_available_local_port s osFree pp = some lp) :
    is_local_port_available s osFree lp = true := by
  unfold find_available_local_port at h
  split at h
  · rename_i hav
    cases h
    exact hav
  · split at h
    · rename_i alt hw
      cases h
      exact List.find?_some hw
    · exact List.find?_some h

theorem forward_port_success_general {s : Forwarder} {osFree : Nat → Bool}
    {q lp : Nat} {n : String} {m : Bool}
    (h1 : q ∉ dkeys s.tunnels) (h2 : q ∉ s.skip_ports)
    (h3 : q ∉ dvalues s.local_port_map) (h4 : q ∉ s.failed_ports)
    (hfind : find_available_local_port s osFree q = some lp)
    (hos : osFree lp = true) :
    forward_port s osFree q n m =
      (true,
       { s with
           heap := s.heap ++
             [{ remote_host := "localhost", remote_port := q,
                local_port := lp, process_name := n, active := true,
                server_socket_open := true,
                bytes_sent := 0, bytes_received := 0 }],
           tunnels := s.tunnels ++ [(q, s.heap.length)],
           local_port_map := dinsert s.local_port_map q lp,
           process_names := dinsert s.process_names q n,
           manual_tunnels :=
             if m ∨ s.max_auto_port < q then insert q s.manual_tunnels
             else s.manual_tunnels }) := by
  unfold forward_port
  rw [if_neg h1, if_neg h2, if_neg (fun hc => h3 hc.1), if_neg h4, hfind]
  simp only [Tunnel.start, Tunnel.init, hos, if_true]
  rw [dinsert_of_not_mem h1]

theorem forward_port_alloc_failed {s : Forwarder} {osFree : Nat → Bool}
    {q : Nat} {n : String} {m : Bool}
    (h1 : q ∉ dkeys s.tunnels) (h2 : q ∉ s.skip_ports)
    (h3 : q ∉ dvalues s.local_port_map) (h4 : q ∉ s.failed_ports)
    (hfind : find_available_local_port s osFree q = none) :
    forward_port s osFree q n m =
      (false, { s with failed_ports := insert q s.failed_ports }) := by
  unfold forward_port
  rw [if_neg h1, if_neg h2, if_neg (fun hc => h3 hc.1), if_neg h4, hfind]

/-- The bookkeeping invariant behind C7: the forwarding set has unique
remote-port keys, the local-port map records exactly the forwarded
ports, and no two entries of the local-port map share a local port. -/
def PortInv (s : Forwarder) : Prop :=
  (dkeys s.tunnels).Nodup ∧
  dkeys s.local_port_map = dkeys s.tunnels ∧
  (dvalues s.local_port_map).Nodup

theorem forward_port_preserves_inv (s : Forwarder) (osFree : Nat → Bool)
    (q : Nat) (n : String) (m : Bool) (h : PortInv s) :
    PortInv (forward_port s osFree q n m).2 := by
  by_cases h1 : q ∈ dkeys s.tunnels
  · rw [forward_port_already h1]
    exact h
  by_cases h2 : q ∈ s.skip_ports
  · rw [forward_port_skip h1 h2]
    exact h
  by_cases h3 : q ∈ dvalues s.local_port_map
  · rw [forward_port_collision h1 h2 h3]
    exact h
  by_cases h4 : q ∈ s.failed_ports
  · rw [forward_port_rejected_failed h1 h2 h3 h4]
    exact h
  obtain ⟨hI1, hI2, hI3⟩ := h
  have h1m : q ∉ dkeys s.local_port_map := by
    rw [hI2]
    exact h1
  cases hfind : find_available_local_port s osFree q with
  | none =>
    rw [forward_port_alloc_failed h1 h2 h3 h4 hfind]
    exact ⟨hI1, hI2, hI3⟩
  | some lp =>
    obtain ⟨hlpm, hos⟩ :=
      is_local_port_available_elim (find_available_local_port_avail hfind)
    rw [forward_port_success_general h1 h2 h3 h4 hfind hos]
    refine ⟨?_, ?_, ?_⟩
    · simp only [dkeys_append]
      rw [List.nodup_append]
      refine ⟨hI1, List.nodup_singleton q, ?_⟩
      simp only [dkeys, List.map_cons, List.map_nil]
      intro x hx hq
      rw [List.mem_singleton] at hq
      exact h1 (hq ▸ hx)
    · rw [dinsert_of_not_mem h1m, dkeys_append, dkeys_append, hI2]
      rfl
    · rw [dinsert_of_not_mem h1m, dvalues_append]
      rw [List.nodup_append]
      refine ⟨hI3, List.nodup_singleton lp, ?_⟩
      simp only [dvalues, List.map_cons, List.map_nil]
      intro x hx hq
      rw [List.mem_singleton] at hq
      exact hlpm (hq ▸ hx)

theorem stop_forwarding_port_preserves_inv (s : Forwarder) (r : Nat)
    (h : PortInv s) : PortInv (stop_forwarding_port s r) := by
  obtain ⟨hI1, hI2, hI3⟩ := h
  unfold stop_forwarding_port
  split
  · refine ⟨?_, ?_, ?_⟩
    · exact hI1.sublist (dkeys_derase_sublist s.tunnels r)
    · rw [dkeys_derase, dkeys_derase, hI2]
    · exact hI3.sublist (dvalues_derase_sublist s.local_port_map r)
  · exact ⟨hI1, hI2, hI3⟩

theorem auto_forward_step_preserves_inv (osFree : Nat → Bool)
    (a : Forwarder) (e : Nat × String) (h : PortInv a) :
    PortInv (auto_forward_step osFree a e) := by
  unfold auto_forward_step
  split
  · exact forward_port_preserves_inv a osFree e.1 e.2 false h
  · exact h

theorem fwd_fold_preserves_inv (osFree : Nat → Bool)
    (L : List (Nat × String)) :
    ∀ (a : Forwarder), PortInv a →
      PortInv (L.foldl (auto_forward_step osFree) a) := by
  induction L with
  | nil => exact fun _ h => h
  | cons e t ih =>
    intro a h
    exact ih _ (auto_forward_step_preserves_inv osFree a e h)

theorem stop_fold_preserves_inv (C : List Nat) :
    ∀ (a : Forwarder), PortInv a →
      PortInv (C.foldl stop_forwarding_port a) := by
  induction C with
  | nil => exact fun _ h => h
  | cons r t ih =>
    intro a h
    exact ih _ (stop_forwarding_port_preserves_inv a r h)

theorem scan_and_forward_preserves_inv (s : Forwarder) (osFree : Nat → Bool)
    (D : List (Nat × String)) (h : PortInv s) :
    PortInv (scan_and_forward s osFree D) := by
  unfold scan_and_forward
  split
  · exact h
  · unfold stop_closed_ports
    apply stop_fold_preserves_inv
    apply fwd_fold_preserves_inv
    exact h

/-- States reachable from a freshly constructed forwarder through the
three mutating entry points (with arbitrary discovery results and OS
behaviour). -/
inductive Reachable : Forwarder → Prop where
  | init (skip_ports : Finset Nat) (port_range : Nat × Nat)
      (max_auto_port : Nat) :
      Reachable (Forwarder.init skip_ports port_range max_auto_port)
  | fwd (s : Forwarder) (osFree : Nat → Bool) (q : Nat) (n : String)
      (m : Bool) : Reachable s → Reachable (forward_port s osFree q n m).2
  | stop (s : Forwarder) (r : Nat) :
      Reachable s → Reachable (stop_forwarding_port s r)
  | scan (s : Forwarder) (osFree : Nat → Bool) (D : List (Nat × String)) :
      Reachable s → Reachable (scan_and_forward s osFree D)

theorem reachable_portinv {s : Forwarder} (h : Reachable s) : PortInv s := by
  induction h with
  | init skip_ports port_range max_auto_port =>
    exact ⟨List.nodup_nil, rfl, List.nodup_nil⟩
  | fwd s osFree q n m _ ih =>
    exact forward_port_preserves_inv s osFree q n m ih
  | stop s r _ ih =>
    exact stop_forwarding_port_preserves_inv s r ih
  | scan s osFree D _ ih =>
    exact scan_and_forward_preserves_inv s osFree D ih

/-- A concrete reachable state: one reconciliation cycle discovering
ports 5000 and 7000 on a fresh forwarder. -/
def demoTwo : Forwarder :=
  scan_and_forward (Forwarder.init (Finset.range 100) (3000, 10000) 10000)
    (fun _ => true) [(5000, "app"), (7000, "web")]

/-- C7: in every state reachable through `forward_port`,
`stop_forwarding_port` and `scan_and_forward`, the forwarding set maps
each remote port to at most one tunnel (its keys are unique), the
local-port map records exactly the forwarded remote ports, and any two
distinct entries of the local-port map carry distinct local ports. -/
theorem forwarding_set_unique_local_ports (s : Forwarder)
    (hs : Reachable s) :
    (dkeys s.tunnels).Nodup ∧
    dkeys s.local_port_map = dkeys s.tunnels ∧
    List.Pairwise (fun e1 e2 => e1.2 ≠ e2.2) s.local_port_map := by
  obtain ⟨h1, h2, h3⟩ := reachable_portinv hs
  refine ⟨h1, h2, ?_⟩
  unfold dvalues List.Nodup at h3
  rw [List.pairwise_map] at h3
  exact h3

/-- Witness for C7 at the concrete reachable state `demoTwo`. -/
theorem forwarding_set_unique_local_ports_witness :
    (dkeys demoTwo.tunnels).Nodup ∧
    dkeys demoTwo.local_port_map = dkeys demoTwo.tunnels ∧
    List.Pairwise (fun e1 e2 => e1.2 ≠ e2.2) demoTwo.local_port_map :=
  forwarding_set_unique_local_ports demoTwo
    (Reachable.scan _ _ _ (Reachable.init _ _ _))

/-! ### The auto-forward ceiling policy -/

theorem isEmpty_eq_false_of_ne_nil {α : Type} {l : List α} (h : l ≠ []) :
    ¬(l.isEmpty = true) := by
  cases l with
  | nil => exact absurd rfl h
  | cons a t => simp

theorem scan_all_remote (s : Forwarder) (osFree : Nat → Bool)
    (D1 : List (Nat × String)) (hne : D1 ≠ []) :
    (scan_and_forward s osFree D1).all_remote_ports = D1 := by
  unfold scan_and_forward
  rw [if_neg (isEmpty_eq_false_of_ne_nil hne)]
  unfold stop_closed_ports
  rw [(stop_fold_frame _ _).2.2.2, (fwd_fold_frame _ _ _).2.2.2]

theorem forward_port_manual_recorded {s : Forwarder} {osFree : Nat → Bool}
    {q : Nat} {n : String}
    (hq : ∀ r, r ∈ dkeys s.tunnels → s.max_auto_port < r →
      r ∈ s.manual_tunnels)
    (hceil : s.max_auto_port < q)
    (htrue : (forward_port s osFree q n true).1 = true) :
    q ∈ (forward_port s osFree q n true).2.manual_tunnels := by
  by_cases h1 : q ∈ dkeys s.tunnels
  · rw [forward_port_already h1]
    exact hq q h1 hceil
  · by_cases h2 : q ∈ s.skip_ports
    · rw [forward_port_skip h1 h2] at htrue
      exact absurd htrue (by simp)
    · by_cases h3 : q ∈ dvalues s.local_port_map
      · rw [forward_port_collision h1 h2 h3] at htrue
        exact absurd htrue (by simp)
      · by_cases h4 : q ∈ s.failed_ports
        · rw [forward_port_rejected_failed h1 h2 h3 h4] at htrue
          exact absurd htrue (by simp)
        · cases hfind : find_available_local_port s osFree q with
          | none =>
            rw [forward_port_alloc_failed h1 h2 h3 h4 hfind] at htrue
            exact absurd htrue (by simp)
          | some lp =>
            obtain ⟨_, hos⟩ := is_local_port_available_elim
              (find_available_local_port_avail hfind)
            rw [forward_port_success_general h1 h2 h3 h4 hfind hos]
            simp

/-- C8: a discovered remote port `p` above the ceiling is kept in the
discovery snapshot by `scan_and_forward` but is never auto-forwarded; an
explicit `forward_port p name manual=true` call bypasses the ceiling
(it succeeds under the usual availability conditions even though
`p > max_auto_port`), and whenever such a call returns true the port is
recorded in the manual overrides.  (The last fact uses the invariant
that every already-forwarded above-ceiling port is already a manual
override, which holds in reachable states since only manual calls can
forward such ports.) -/
theorem ceiling_policy (s : Forwarder) (osFree : Nat → Bool)
    (D1 : List (Nat × String)) (p : Nat) (name : String)
    (hne : D1 ≠ []) (hp : p ∈ dkeys D1) (hceil : s.max_auto_port < p)
    (hman : ∀ r, r ∈ dkeys s.tunnels → s.max_auto_port < r →
      r ∈ s.manual_tunnels) :
    p ∈ dkeys (scan_and_forward s osFree D1).all_remote_ports ∧
    (p ∉ dkeys s.tunnels →
      p ∉ dkeys (scan_and_forward s osFree D1).tunnels) ∧
    ((forward_port s osFree p name true).1 = true →
      p ∈ (forward_port s osFree p name true).2.manual_tunnels) ∧
    (p ∉ dkeys s.tunnels → p ∉ s.skip_ports →
      p ∉ dvalues s.local_port_map → p ∉ s.failed_ports →
      osFree p = true → (forward_port s osFree p name true).1 = true) := by
  refine ⟨?_, ?_, ?_, ?_⟩
  · rw [scan_all_remote s osFree D1 hne]
    exact hp
  · intro hpt
    unfold scan_and_forward
    rw [if_neg (isEmpty_eq_false_of_ne_nil hne)]
    unfold stop_closed_ports
    rw [stop_fold_tunnels_mem]
    intro hc
    exact (fwd_fold_tunnels_not_mem_gt osFree D1
      { s with all_remote_ports := D1 } p hceil hpt) hc.1
  · exact forward_port_manual_recorded hman hceil
  · intro h1 h2 h3 h4 hos
    rw [forward_port_success h1 h2 h3 h4 hos]

/-- Witness for C8: port 15000 discovered on a fresh forwarder with
ceiling 10000. -/
theorem ceiling_policy_witness :
    15000 ∈ dkeys (scan_and_forward demoFailed (fun _ => true)
        [(15000, "devtool")]).all_remote_ports ∧
    (15000 ∉ dkeys demoFailed.tunnels →
      15000 ∉ dkeys (scan_and_forward demoFailed (fun _ => true)
        [(15000, "devtool")]).tunnels) ∧
    ((forward_port demoFailed (fun _ => true) 15000 "devtool" true).1 =
        true →
      15000 ∈ (forward_port demoFailed
        (fun _ => true) 15000 "devtool" true).2.manual_tunnels) ∧
    (15000 ∉ dkeys demoFailed.tunnels → 15000 ∉ demoFailed.skip_ports →
      15000 ∉ dvalues demoFailed.local_port_map →
      15000 ∉ demoFailed.failed_ports → (fun _ => true) 15000 = true →
      (forward_port demoFailed (fun _ => true) 15000 "devtool" true).1 =
        true) :=
  ceiling_policy demoFailed (fun _ => true) [(15000, "devtool")] 15000
    "devtool" (by decide) (by decide) (by decide)
    (by intro r hr hgt; simp [demoFailed, Forwarder.init, dkeys] at hr)

/-! ### Convergence of scan_and_forward -/

theorem mem_dkeys_cons {α : Type} (e : Nat × α) (t : List (Nat × α))
    (p : Nat) : p ∈ dkeys (e :: t) ↔ p = e.1 ∨ p ∈ dkeys t := by
  simp [dkeys]

/-- Forward phase of a cycle in a successful environment (every OS bind
succeeds, no discovered port collides with an existing local port): the
forwarding set gains exactly the fresh discovered ports that are at or
under the ceiling, not skipped, and not failed; local-port values stay
within the old values plus the discovered ports; the failed set does not
change. -/
theorem fwd_fold_mem_success (osFree : Nat → Bool)
    (hos : ∀ r, osFree r = true) :
    ∀ (L : List (Nat × String)) (a : Forwarder),
      (dkeys L).Nodup →
      (∀ r, r ∈ dkeys L → r ∉ dvalues a.local_port_map) →
      (∀ p,
        (p ∈ dkeys ((L.foldl (auto_forward_step osFree) a).tunnels) ↔
          p ∈ dkeys a.tunnels ∨
            (p ∈ dkeys L ∧ p ≤ a.max_auto_port ∧ p ∉ a.skip_ports ∧
              p ∉ a.failed_ports))) ∧
      (∀ v, v ∈ dvalues ((L.foldl (auto_forward_step osFree)
          a).local_port_map) →
        v ∈ dvalues a.local_port_map ∨ v ∈ dkeys L) ∧
      (L.foldl (auto_forward_step osFree) a).failed_ports =
        a.failed_ports := by
  intro L
  induction L with
  | nil =>
    intro a _ _
    refine ⟨fun p => ?_, fun v hv => Or.inl hv, rfl⟩
    simp [dkeys]
  | cons e t ih =>
    intro a hnd hcol
    obtain ⟨hq_notin_t, hnd_t⟩ : e.1 ∉ dkeys t ∧ (dkeys t).Nodup := by
      simpa [dkeys] using hnd
    have hcol_t : ∀ r, r ∈ dkeys t → r ∉ dvalues a.local_port_map :=
      fun r hr => hcol r ((mem_dkeys_cons e t r).mpr (Or.inr hr))
    by_cases hle : e.1 ≤ a.max_auto_port
    · have hstep : auto_forward_step osFree a e =
          (forward_port a osFree e.1 e.2 false).2 := by
        unfold auto_forward_step
        rw [if_pos hle]
      simp only [List.foldl_cons, hstep]
      have h3 : e.1 ∉ dvalues a.local_port_map :=
        hcol e.1 ((mem_dkeys_cons e t e.1).mpr (Or.inl rfl))
      by_cases h1 : e.1 ∈ dkeys a.tunnels
      · have hfp : (forward_port a osFree e.1 e.2 false).2 = a := by
          rw [forward_port_already h1]
        rw [hfp]
        obtain ⟨ihm, ihv, ihf⟩ := ih a hnd_t hcol_t
        refine ⟨fun p => ?_,
          fun v hv => (ihv v hv).imp id
            (fun h => (mem_dkeys_cons e t v).mpr (Or.inr h)), ihf⟩
        rw [ihm p]
        constructor
        · rintro (h | ⟨hpt, hrest⟩)
          · exact Or.inl h
          · exact Or.inr ⟨(mem_dkeys_cons e t p).mpr (Or.inr hpt), hrest⟩
        · rintro (h | ⟨hpc, hrest⟩)
          · exact Or.inl h
          · rcases (mem_dkeys_cons e t p).mp hpc with heq | hpt
            · exact Or.inl (heq ▸ h1)
            · exact Or.inr ⟨hpt, hrest⟩
      · by_cases h2 : e.1 ∈ a.skip_ports
        · have hfp : (forward_port a osFree e.1 e.2 false).2 = a := by
            rw [forward_port_skip h1 h2]
          rw [hfp]
          obtain ⟨ihm, ihv, ihf⟩ := ih a hnd_t hcol_t
          refine ⟨fun p => ?_,
            fun v hv => (ihv v hv).imp id
              (fun h => (mem_dkeys_cons e t v).mpr (Or.inr h)), ihf⟩
          rw [ihm p]
          constructor
          · rintro (h | ⟨hpt, hrest⟩)
            · exact Or.inl h
            · exact Or.inr ⟨(mem_dkeys_cons e t p).mpr (Or.inr hpt), hrest⟩
          · rintro (h | ⟨hpc, hle', hsk, hfl⟩)
            · exact Or.inl h
            · rcases (mem_dkeys_cons e t p).mp hpc with heq | hpt
              · exact absurd (heq ▸ h2) hsk
              · exact Or.inr ⟨hpt, hle', hsk, hfl⟩
        · by_cases h4 : e.1 ∈ a.failed_ports
          · have hfp : (forward_port a osFree e.1 e.2 false).2 = a := by
              rw [forward_port_rejected_failed h1 h2 h3 h4]
            rw [hfp]
            obtain ⟨ihm, ihv, ihf⟩ := ih a hnd_t hcol_t
            refine ⟨fun p => ?_,
              fun v hv => (ihv v hv).imp id
                (fun h => (mem_dkeys_cons e t v).mpr (Or.inr h)), ihf⟩
            rw [ihm p]
            constructor
            · rintro (h | ⟨hpt, hrest⟩)
              · exact Or.inl h
              · exact Or.inr ⟨(mem_dkeys_cons e t p).mpr (Or.inr hpt),
                  hrest⟩
            · rintro (h | ⟨hpc, hle', hsk, hfl⟩)
              · exact Or.inl h
              · rcases (mem_dkeys_cons e t p).mp hpc with heq | hpt
                · exact absurd (heq ▸ h4) hfl
                · exact Or.inr ⟨hpt, hle', hsk, hfl⟩
          · have hos1 : osFree e.1 = true := hos e.1
            obtain ⟨hBt, hBm, hBmax, hBskip, hBfail⟩ :
                (forward_port a osFree e.1 e.2 false).2.tunnels =
                    a.tunnels ++ [(e.1, a.heap.length)] ∧
                  (forward_port a osFree e.1 e.2 false).2.local_port_map =
                    dinsert a.local_port_map e.1 e.1 ∧
                  (forward_port a osFree e.1 e.2 false).2.max_auto_port =
                    a.max_auto_port ∧
                  (forward_port a osFree e.1 e.2 false).2.skip_ports =
                    a.skip_ports ∧
                  (forward_port a osFree e.1 e.2 false).2.failed_ports =
                    a.failed_ports := by
              rw [forward_port_success h1 h2 h3 h4 hos1]
              exact ⟨rfl, rfl, rfl, rfl, rfl⟩
            have hcol_B : ∀ r, r ∈ dkeys t →
                r ∉ dvalues
                  (forward_port a osFree e.1 e.2 false).2.local_port_map := by
              intro r hr hmem
              rw [hBm] at hmem
              rcases mem_dvalues_dinsert hmem with h | h
              · exact hcol_t r hr h
              · exact hq_notin_t (h ▸ hr)
            obtain ⟨ihm, ihv, ihf⟩ :=
              ih (forward_port a osFree e.1 e.2 false).2 hnd_t hcol_B
            have hBt_mem : ∀ p,
                p ∈ dkeys (forward_port a osFree e.1 e.2 false).2.tunnels ↔
                  p ∈ dkeys a.tunnels ∨ p = e.1 := by
              intro p
              rw [hBt, dkeys_append]
              simp [dkeys]
            refine ⟨fun p => ?_, fun v hv => ?_, ?_⟩
            · rw [ihm p, hBt_mem p, hBmax, hBskip, hBfail]
              constructor
              · rintro ((h | heq) | ⟨hpt, hle', hsk, hfl⟩)
                · exact Or.inl h
                · exact Or.inr ⟨(mem_dkeys_cons e t p).mpr (Or.inl heq),
                    heq ▸ hle, heq ▸ h2, heq ▸ h4⟩
                · exact Or.inr ⟨(mem_dkeys_cons e t p).mpr (Or.inr hpt),
                    hle', hsk, hfl⟩
              · rintro (h | ⟨hpc, hle', hsk, hfl⟩)
                · exact Or.inl (Or.inl h)
                · rcases (mem_dkeys_cons e t p).mp hpc with heq | hpt
                  · exact Or.inl (Or.inr heq)
                  · exact Or.inr ⟨hpt, hle', hsk, hfl⟩
            · rcases ihv v hv with h | h
              · rw [hBm] at h
                rcases mem_dvalues_dinsert h with h' | h'
                · exact Or.inl h'
                · exact Or.inr ((mem_dkeys_cons e t v).mpr (Or.inl h'))
              · exact Or.inr ((mem_dkeys_cons e t v).mpr (Or.inr h))
            · rw [ihf, hBfail]
    · have hstep : auto_forward_step osFree a e = a := by
        unfold auto_forward_step
        rw [if_neg hle]
      simp only [List.foldl_cons, hstep]
      obtain ⟨ihm, ihv, ihf⟩ := ih a hnd_t hcol_t
      refine ⟨fun p => ?_,
        fun v hv => (ihv v hv).imp id
          (fun h => (mem_dkeys_cons e t v).mpr (Or.inr h)), ihf⟩
      rw [ihm p]
      constructor
      · rintro (h | ⟨hpt, hrest⟩)
        · exact Or.inl h
        · exact Or.inr ⟨(mem_dkeys_cons e t p).mpr (Or.inr hpt), hrest⟩
      · rintro (h | ⟨hpc, hle', hsk, hfl⟩)
        · exact Or.inl h
        · rcases (mem_dkeys_cons e t p).mp hpc with heq | hpt
          · exact absurd (heq ▸ hle') hle
          · exact Or.inr ⟨hpt, hle', hsk, hfl⟩

/-- A freshly constructed forwarder with skip set 0–99 and ceiling
10000. -/
def demoFresh : Forwarder :=
  Forwarder.init (Finset.range 100) (3000, 10000) 10000

/-- C1: convergence of one reconciliation cycle.  With a non-empty
discovery result `D1` (unique ports), in an environment in which every
OS bind succeeds and no discovered port collides with an in-use local
forwarding port, the resulting forwarding set holds exactly the
discovered ports that either were already forwarded (manual tunnels
still present in `D1` included) or are auto-eligible (at or under the
ceiling, not skipped, not failed); in particular every previously
forwarded port absent from `D1` is removed. -/
theorem scan_and_forward_converges (s : Forwarder) (osFree : Nat → Bool)
    (D1 : List (Nat × String)) (hne : D1 ≠ [])
    (hnodup : (dkeys D1).Nodup)
    (hos : ∀ r, osFree r = true)
    (hcol : ∀ r, r ∈ dkeys D1 → r ∉ dvalues s.local_port_map) :
    ∀ p,
      (p ∈ dkeys ((scan_and_forward s osFree D1).tunnels) ↔
        p ∈ dkeys D1 ∧
          (p ∈ dkeys s.tunnels ∨
            (p ≤ s.max_auto_port ∧ p ∉ s.skip_ports ∧
              p ∉ s.failed_ports))) ∧
      (p ∈ dkeys s.tunnels → p ∉ dkeys D1 →
        p ∉ dkeys ((scan_and_forward s osFree D1).tunnels)) := by
  intro p
  have hiff : p ∈ dkeys ((scan_and_forward s osFree D1).tunnels) ↔
      p ∈ dkeys D1 ∧
        (p ∈ dkeys s.tunnels ∨
          (p ≤ s.max_auto_port ∧ p ∉ s.skip_ports ∧
            p ∉ s.failed_ports)) := by
    unfold scan_and_forward
    rw [if_neg (isEmpty_eq_false_of_ne_nil hne)]
    unfold stop_closed_ports
    obtain ⟨ihm, _, _⟩ := fwd_fold_mem_success osFree hos D1
      { s with all_remote_ports := D1 } hnodup hcol
    rw [stop_fold_tunnels_mem]
    have hC : p ∈ (dkeys (List.foldl (auto_forward_step osFree)
          { s with all_remote_ports := D1 } D1).tunnels).filter
          (fun port => decide (port ∉ dkeys D1)) ↔
        (p ∈ dkeys (List.foldl (auto_forward_step osFree)
          { s with all_remote_ports := D1 } D1).tunnels ∧
          p ∉ dkeys D1) := by
      rw [List.mem_filter]
      simp
    rw [hC, ihm p]
    dsimp only
    tauto
  exact ⟨hiff, fun _ hpD hmem => hpD (hiff.mp hmem).1⟩

/-- Witness for C1 on the spec scenario: discovery
{80: nginx, 5000: app, 15000: dev} against a fresh forwarder, checked at
port 5000. -/
theorem scan_and_forward_converges_witness :
    (5000 ∈ dkeys ((scan_and_forward demoFresh (fun _ => true)
        [(80, "nginx"), (5000, "app"), (15000, "dev")]).tunnels) ↔
      5000 ∈ dkeys [(80, "nginx"), (5000, "app"), (15000, "dev")] ∧
        (5000 ∈ dkeys demoFresh.tunnels ∨
          (5000 ≤ demoFresh.max_auto_port ∧
            5000 ∉ demoFresh.skip_ports ∧
            5000 ∉ demoFresh.failed_ports))) ∧
    (5000 ∈ dkeys demoFresh.tunnels →
      5000 ∉ dkeys [(80, "nginx"), (5000, "app"), (15000, "dev")] →
      5000 ∉ dkeys ((scan_and_forward demoFresh (fun _ => true)
        [(80, "nginx"), (5000, "app"), (15000, "dev")]).tunnels)) :=
  scan_and_forward_converges demoFresh (fun _ => true)
    [(80, "nginx"), (5000, "app"), (15000, "dev")]
    (by decide) (by decide) (fun r => rfl) (by decide) 5000

end SSHAutoForward
